import Mathlib

/-!
# Tutti rehearsal server — verification of the per-room mixing engine

A shallow embedding of the audio-mixing core of the `tutti` server
(`server/src/audio/mixer.cpp`, `server/src/audio/room.cpp` and its
fast-path revision, `server/src/rooms/room_manager.cpp`,
`server/src/transport/session_binder.cpp`, and the packet codec in the
transport layer), together with proofs of the specified properties.

C++ machine types are embedded as `Nat` / `Int` with explicit wrapping
(`% 2 ^ 32` for `uint32_t` counters, `% 65536` for `int16_t` byte pairs),
`float` gains as `ℚ` (the spec fixes rounding as half-to-nearest and
`std::lround` rounds half away from zero), `std::unordered_map` as
association lists with the first binding authoritative, and the SPSC
rings as bounded lists (front = oldest element).
-/

set_option maxRecDepth 40000

namespace Tutti

/-- Samples per frame (`kSamplesPerFrame`): one render quantum. -/
def kSamplesPerFrame : Nat := 128

/-- Wire size of an audio datagram (`kAudioPacketSize` = 8 + 256). -/
def kAudioPacketSize : Nat := 264

/-- SPSC ring capacity used for the per-participant queues (default 64). -/
def kQueueCapacity : Nat := 64

/-- `std::lround` on a rational: round half away from zero. -/
def lround (q : ℚ) : ℤ :=
  if 0 ≤ q then ⌊q + 1 / 2⌋ else -⌊-q + 1 / 2⌋

/-- `std::clamp(v, INT16_MIN, INT16_MAX)` — saturate to the signed-16-bit range. -/
def i16clamp (x : ℤ) : ℤ :=
  max (-32768) (min x 32767)

/-- `std::clamp(gain, 0.0f, 1.0f)` as performed by `Mixer::set_gain`. -/
def clamp01 (g : ℚ) : ℚ :=
  max 0 (min g 1)

/-- Per-pair gain entry (`GainEntry` in `mixer.h`): default gain 1, unmuted. -/
structure GainEntry where
  gain : ℚ := 1
  muted : Bool := false
deriving DecidableEq, Repr

/-- The two-level gain mapping `gains_[listener][source]`. -/
abbrev GainMap := List (String × List (String × GainEntry))

/-- First-binding lookup in an association list (`unordered_map::find`). -/
def lookupKey {β : Type} : List (String × β) → String → Option β
  | [], _ => none
  | (k, v) :: rest, key => if k = key then some v else lookupKey rest key

/-- Erase the binding for a key (`unordered_map::erase`); maps hold at most one. -/
def eraseKey {β : Type} : List (String × β) → String → List (String × β)
  | [], _ => []
  | (k, v) :: rest, key => if k = key then rest else (k, v) :: eraseKey rest key

/-- `unordered_map::operator[] = v`: replace the existing binding or append one. -/
def setKey {β : Type} : List (String × β) → String → β → List (String × β)
  | [], key, v => [(key, v)]
  | (k, w) :: rest, key, v =>
      if k = key then (k, v) :: rest else (k, w) :: setKey rest key v

/-- Gain lookup as done inside `Mixer::mix_cycle` (lines 120–128):
missing listener rows or source cells yield the default (gain 1, unmuted). -/
def lookup2 (gains : GainMap) (listener source : String) : GainEntry :=
  match lookupKey gains listener with
  | none => {}
  | some row =>
      match lookupKey row source with
      | none => {}
      | some e => e

/-- `unordered_map::operator[]`-style update of a listener row: the cell is
created with the default entry if absent, then modified. -/
def updRow (row : List (String × GainEntry)) (source : String)
    (f : GainEntry → GainEntry) : List (String × GainEntry) :=
  match row with
  | [] => [(source, f {})]
  | (k, e) :: rest =>
      if k = source then (k, f e) :: rest else (k, e) :: updRow rest source f

/-- Two-level `operator[]` update `gains_[listener][source]`. -/
def updGains (gains : GainMap) (listener source : String)
    (f : GainEntry → GainEntry) : GainMap :=
  match gains with
  | [] => [(listener, updRow [] source f)]
  | (k, row) :: rest =>
      if k = listener then (k, updRow row source f) :: rest
      else (k, row) :: updGains rest listener source f

/-- `Mixer::set_gain` (mixer.cpp lines 36–41): gain clamped to `[0, 1]`. -/
def gainsSetGain (gains : GainMap) (listener source : String) (v : ℚ) : GainMap :=
  updGains gains listener source (fun e => { e with gain := clamp01 v })

/-- `Mixer::set_mute` (mixer.cpp lines 43–48). -/
def gainsSetMute (gains : GainMap) (listener source : String) (b : Bool) : GainMap :=
  updGains gains listener source (fun e => { e with muted := b })

/-- One step of the accumulation loop over sources in `Mixer::mix_cycle`
(lines 113–137): skip the listener's own slot, slots without an input frame
this cycle, and muted or non-positive gains; otherwise add
`lround(sample * gain)` element-wise into the 32-bit accumulator and mark
that some source contributed. -/
def mixStep {n : Nat} (gains : GainMap) (lid : String) (pid : Fin n → String)
    (input : Fin n → Option (List ℤ)) (li : Fin n)
    (acc : Bool × List ℤ) (j : Fin n) : Bool × List ℤ :=
  if j = li then acc
  else
    match input j with
    | none => acc
    | some samples =>
        let ge := lookup2 gains lid (pid j)
        if ge.muted = true ∨ ge.gain ≤ 0 then acc
        else (true, List.zipWith (fun (a x : ℤ) => a + lround (Int.cast x * ge.gain)) acc.2 samples)

/-- The per-listener body of `Mixer::mix_cycle` (lines 100–151): accumulate
all other participants' frames, and if any source contributed saturate the
accumulator to int16 and produce the output frame; otherwise produce none. -/
def mixFor {n : Nat} (gains : GainMap) (pid : Fin n → String)
    (input : Fin n → Option (List ℤ)) (li : Fin n) : Option (List ℤ) :=
  let r := (List.finRange n).foldl (mixStep gains (pid li) pid input li)
      (false, List.replicate kSamplesPerFrame 0)
  if r.1 then some (r.2.map i16clamp) else none

/-- The sample-scaling loop of the two-participant fast path
(`Room::on_audio_received`, gain ≠ 1 branch): each sample becomes
`clamp(lround(sample * gain))`. -/
def fastScale (g : ℚ) (samples : List ℤ) : List ℤ :=
  samples.map (fun (x : ℤ) => i16clamp (lround (Int.cast x * g)))

/-! ## AudioPacket wire codec (`AudioPacket::serialize` / `deserialize`) -/

/-- An audio datagram / frame. `AudioFrame` in the source carries the same
three fields and `from_packet` / `to_packet` copy them verbatim, so one type
models both. `sequence` and `timestamp` are `uint32_t` values. -/
structure AudioPacket where
  sequence : Nat
  timestamp : Nat
  samples : List ℤ
deriving DecidableEq, Repr

/-- The four little-endian bytes of a `uint32_t` value. -/
def u32Bytes (n : Nat) : List Nat :=
  [n % 256, n / 256 % 256, n / 256 ^ 2 % 256, n / 256 ^ 3 % 256]

/-- The two little-endian bytes of an `int16_t` sample (two's complement). -/
def i16Bytes (x : ℤ) : List Nat :=
  [(x % 65536).toNat % 256, (x % 65536).toNat / 256]

/-- Read a little-endian `uint32_t` at `off` (out-of-range bytes read as 0). -/
def readU32 (data : List Nat) (off : Nat) : Nat :=
  data.getD off 0 + 256 * data.getD (off + 1) 0 +
    256 ^ 2 * data.getD (off + 2) 0 + 256 ^ 3 * data.getD (off + 3) 0

/-- Read a little-endian `int16_t` at `off` (two's complement). -/
def readI16 (data : List Nat) (off : Nat) : ℤ :=
  let v := (data.getD off 0 + 256 * data.getD (off + 1) 0) % 65536
  if v < 32768 then (v : ℤ) else (v : ℤ) - 65536

/-- `AudioPacket::deserialize`: a buffer shorter than 264 bytes yields the
zero-filled packet; otherwise the header is read at offsets 0 and 4 and the
128 samples at offsets 8, 10, …, 262 — bytes past offset 263 are never read. -/
def AudioPacket.deserialize (data : List Nat) : AudioPacket :=
  if data.length < kAudioPacketSize then
    ⟨0, 0, List.replicate kSamplesPerFrame 0⟩
  else
    ⟨readU32 data 0, readU32 data 4,
      (List.range kSamplesPerFrame).map (fun i => readI16 data (8 + 2 * i))⟩

/-- `AudioPacket::serialize`: 4-byte LE sequence, 4-byte LE timestamp,
then the samples as consecutive 2-byte LE pairs. -/
def AudioPacket.serialize (p : AudioPacket) : List Nat :=
  u32Bytes p.sequence ++ u32Bytes p.timestamp ++ (p.samples.map i16Bytes).flatten

/-! ## Mixer state (`Mixer` in mixer.cpp) -/

/-- The two SPSC rings of a `ParticipantMixState`, as bounded lists
(head = oldest frame). -/
structure MixState where
  input_queue : List AudioPacket
  output_queue : List AudioPacket
deriving DecidableEq, Repr

/-- `SPSCQueue::try_push`: drop the frame when the ring is full. -/
def tryPush (q : List AudioPacket) (f : AudioPacket) : List AudioPacket :=
  if kQueueCapacity ≤ q.length then q else q ++ [f]

/-- `Mixer`: participant map, gain matrix and capacity. -/
structure MixerState where
  maxParticipants : Nat
  participants : List (String × MixState)
  gains : GainMap
deriving DecidableEq, Repr

/-- `Mixer::add_participant` (lines 19–23): no-op at capacity; otherwise
`participants_[id]` is (re)bound to a fresh state with empty rings. -/
def MixerState.addParticipant (m : MixerState) (id : String) : MixerState :=
  if m.maxParticipants ≤ m.participants.length then m
  else { m with participants := setKey m.participants id ⟨[], []⟩ }

/-- `Mixer::remove_participant` (lines 25–34): erase the mix state, the
listener row `gains_[id]`, and every cell `gains_[*][id]`. -/
def MixerState.removeParticipant (m : MixerState) (id : String) : MixerState :=
  { m with
    participants := eraseKey m.participants id,
    gains := (eraseKey m.gains id).map (fun e => (e.1, eraseKey e.2 id)) }

/-- `Mixer::set_gain`. -/
def MixerState.setGain (m : MixerState) (listener source : String) (v : ℚ) :
    MixerState :=
  { m with gains := gainsSetGain m.gains listener source v }

/-- `Mixer::set_mute`. -/
def MixerState.setMute (m : MixerState) (listener source : String) (b : Bool) :
    MixerState :=
  { m with gains := gainsSetMute m.gains listener source b }

/-- `Mixer::push_input` (lines 50–56): false for unknown participants,
otherwise `try_push` on the input ring. -/
def MixerState.pushInput (m : MixerState) (id : String) (f : AudioPacket) :
    MixerState × Bool :=
  match lookupKey m.participants id with
  | none => (m, false)
  | some st =>
      let st1 := { st with input_queue := tryPush st.input_queue f }
      ({ m with participants := setKey m.participants id st1 },
        decide (st.input_queue.length < kQueueCapacity))

/-- `Mixer::pop_output` (lines 58–64): pop the oldest frame of the output
ring, failing for unknown participants or an empty ring. -/
def MixerState.popOutput (m : MixerState) (id : String) :
    MixerState × Option AudioPacket :=
  match lookupKey m.participants id with
  | none => (m, none)
  | some st =>
      match st.output_queue with
      | [] => (m, none)
      | f :: rest =>
          let st1 := { st with output_queue := rest }
          ({ m with participants := setKey m.participants id st1 }, some f)

/-- `Mixer::mix_cycle` (lines 66–152) at the queue level: snapshot the
participant list, pop at most one frame per input ring, compute each
listener's personalised mix with `mixFor` over the popped frames, and push
the produced frames (sequence and timestamp 0) onto the output rings,
dropping on full. -/
def MixerState.mixCycle (m : MixerState) : MixerState :=
  let l := m.participants
  let pid : Fin l.length → String := fun i => (l.get i).1
  let input : Fin l.length → Option (List ℤ) :=
    fun i => ((l.get i).2.input_queue.head?).map AudioPacket.samples
  { m with participants :=
      (List.finRange l.length).map (fun i =>
        let e := l.get i
        let st1 := { e.2 with input_queue := e.2.input_queue.tail }
        match mixFor m.gains pid input i with
        | none => (e.1, st1)
        | some out =>
            (e.1, { st1 with output_queue := tryPush st1.output_queue ⟨0, 0, out⟩ })) }

/-- Modelled from the spec: `Mixer::get_gain_entry` is declared and called by
the two-participant fast path in `Room::on_audio_received`, but its definition
is not among the source files under src/. Per the spec (§4.2 and §9), it is a
snapshot read of the same gain storage used by `mix_cycle`, so an absent
entry yields the default (gain 1, unmuted). -/
def MixerState.getGainEntry (m : MixerState) (listener source : String) :
    GainEntry :=
  lookup2 m.gains listener source

/-! ## Room state (`Room` in room.cpp, fast-path revision) -/

/-- The per-participant record held in `Room::participants_`
(`alias` is a reserved word in Lean, hence `palias`). -/
structure RoomParticipant where
  palias : String
  session : Option String
  output_sequence : Nat
  join_time : Nat
  last_audio_received_ns : Nat
  last_audio_sent_ns : Nat
deriving DecidableEq, Repr

/-- A reliable control message emitted by the room (only the constructors the
verified operations emit are modelled; the JSON dump is abstracted). -/
inductive CtrlMsg where
  | participantJoined (id palias : String)
  | participantLeft (id : String)
  | vacateRequest
deriving DecidableEq, Repr

/-- `Room`: participant table, mixer, password, and the atomic
`frames_received_` counter of the event-driven wakeup. -/
structure RoomState where
  maxParticipants : Nat
  participants : List (String × RoomParticipant)
  mixer : MixerState
  password : String
  framesReceived : Nat
deriving DecidableEq, Repr

/-- `Room::claim` (always succeeds, overwrites the stored password). -/
def RoomState.claimPassword (st : RoomState) (p : String) : Bool × RoomState :=
  (true, { st with password := p })

/-- `Room::check_password`: an empty stored password accepts anything;
otherwise the argument must match. -/
def RoomState.checkPassword (st : RoomState) (p : String) : Bool :=
  if st.password = "" then true else decide (st.password = p)

/-- `Room::clear_password`. -/
def RoomState.clearPassword (st : RoomState) : RoomState :=
  { st with password := "" }

/-- `Room::remove_participant` (room.cpp lines 102–121 / fast-path revision
lines 120–139): erase from the table and the mixer, broadcast
`participant_left` to every remaining participant with a session, and clear
the password if the room is now empty. Returns the new state and the list of
(session, message) pairs sent on the reliable channel. -/
def RoomState.removeParticipant (st : RoomState) (id : String) :
    RoomState × List (String × CtrlMsg) :=
  let parts1 := eraseKey st.participants id
  let mixer1 := st.mixer.removeParticipant id
  let sends := parts1.filterMap
    (fun e => e.2.session.map (fun s => (s, CtrlMsg.participantLeft id)))
  let pw := if parts1.isEmpty then "" else st.password
  ({ st with participants := parts1, mixer := mixer1, password := pw }, sends)

/-- Update the record bound to `k` in place, leaving every other binding
untouched (the in-place mutation of one `unordered_map` entry). -/
def stampKey {β : Type} : List (String × β) → String → (β → β) → List (String × β)
  | [], _, _ => []
  | (a, b) :: rest, k, g =>
      (if a = k then (a, g b) else (a, b)) :: stampKey rest k g

/-- The activity stamp `last_audio_received_ns = now_ns()` placed on the
sender at the top of `Room::on_audio_received`. -/
def stampReceived (st : RoomState) (sender : String) (now : Nat) : RoomState :=
  { st with participants :=
      stampKey st.participants sender (fun p => { p with last_audio_received_ns := now }) }

/-- The fast path's scan for the single *other* participant: the first table
entry whose key differs from the sender. -/
def findTarget (parts : List (String × RoomParticipant)) (sender : String) :
    Option (String × RoomParticipant) :=
  parts.find? (fun e => decide (e.1 ≠ sender))

/-- The post-increment `p.output_sequence++` on the `uint32_t` counter. -/
def seqSucc (n : Nat) : Nat := (n + 1) % 2 ^ 32

/-- `Room::on_audio_received` (fast-path revision lines 141–217).
Datagrams shorter than 264 bytes are discarded before any state change.
With exactly two participants the frame is forwarded directly: the target's
output sequence is consumed (post-increment) and `last_audio_sent_ns`
stamped *before* the gain entry is consulted; mute or non-positive gain then
drops the datagram, unit gain forwards the original bytes with the sequence
overwritten, and any other gain rescales each sample with saturation.
Otherwise the frame is pushed to the mixer and `frames_received_` bumped.
Returns the new state and the datagrams sent as (session, bytes) pairs. -/
def RoomState.onAudioReceived (st : RoomState) (sender : String)
    (data : List Nat) (now : Nat) : RoomState × List (String × List Nat) :=
  if data.length < kAudioPacketSize then (st, [])
  else
    let st1 := stampReceived st sender now
    if st1.participants.length = 2 then
      match findTarget st1.participants sender with
      | none => (st1, [])
      | some (tid, tp) =>
          let seq := tp.output_sequence
          let bump := fun (p : RoomParticipant) =>
            { p with output_sequence := seqSucc seq, last_audio_sent_ns := now }
          let st2 := { st1 with participants := stampKey st1.participants tid bump }
          let ge := st2.mixer.getGainEntry tid sender
          if ge.muted = true ∨ ge.gain ≤ 0 then (st2, [])
          else
            let payload :=
              if ge.gain = 1 then u32Bytes seq ++ (data.take kAudioPacketSize).drop 4
              else
                let pkt := AudioPacket.deserialize data
                AudioPacket.serialize
                  { pkt with sequence := seq, samples := fastScale ge.gain pkt.samples }
            match tp.session with
            | some s => (st2, [(s, payload)])
            | none => (st2, [])
    else
      let pkt := AudioPacket.deserialize data
      let mixed := st1.mixer.pushInput sender pkt
      ({ st1 with mixer := mixed.1, framesReceived := st1.framesReceived + 1 }, [])

/-- The body of `Room::send_outputs` (fast-path revision lines 361–386):
walk the participant table; for each participant pop at most one frame from
the mixer's output ring, stamp `last_audio_sent_ns`, stamp the frame with the
participant's output sequence (post-increment), and serialize it into the
pending-send list. Participants without a popped frame are untouched. -/
def sendOutputsAux (now : Nat) :
    List (String × RoomParticipant) → MixerState →
    List (String × RoomParticipant) × MixerState × List (Option String × List Nat)
  | [], m => ([], m, [])
  | (id, p) :: rest, m =>
      let pm := m.popOutput id
      match pm.2 with
      | none =>
          let r := sendOutputsAux now rest pm.1
          ((id, p) :: r.1, r.2.1, r.2.2)
      | some fr =>
          let pkt := { fr with sequence := p.output_sequence }
          let p1 := { p with last_audio_sent_ns := now,
                             output_sequence := seqSucc p.output_sequence }
          let r := sendOutputsAux now rest pm.1
          ((id, p1) :: r.1, r.2.1, (p.session, AudioPacket.serialize pkt) :: r.2.2)

/-- `Room::send_outputs`: the datagram for a pending send is dispatched only
when the participant has a session (`if (ps.session) send_datagram`). -/
def RoomState.sendOutputs (st : RoomState) (now : Nat) :
    RoomState × List (Option String × List Nat) :=
  let r := sendOutputsAux now st.participants st.mixer
  ({ st with participants := r.1, mixer := r.2.1 }, r.2.2)

/-- The output-sequence counter a room holds for a participant. -/
def counterOf (st : RoomState) (id : String) : Option Nat :=
  (lookupKey st.participants id).map RoomParticipant.output_sequence

/-! ## RoomManager vacate requests (`RoomManager::vacate_request`) -/

/-- `RoomManager::VacateResult`. -/
inductive VacateResult where
  | roomNotFound
  | roomEmpty
  | cooldownActive
  | sent
deriving DecidableEq, Repr

/-- `kVacateCooldown = std::chrono::hours(24)`, in nanoseconds. -/
def kVacateCooldownNs : Nat := 24 * 60 * 60 * 1000000000

/-- `RoomManager`: the room table and the vacate-cooldown map keyed by
`source_ip + ":" + room_name`. -/
structure ManagerState where
  rooms : List (String × RoomState)
  cooldowns : List (String × Nat)
deriving DecidableEq, Repr

/-- `RoomManager::vacate_request` (room_manager.cpp lines 92–123): unknown
room, empty room and active cooldown short-circuit; otherwise the cooldown
stamp is refreshed and the result is `Sent`. The broadcast loop in the source
builds the `{"type":"vacate_request"}` string but its body sends it on no
session, so the returned list of dispatched (session, message) pairs — the
third component — is what the loop actually sends. -/
def ManagerState.vacateRequest (ms : ManagerState) (roomName sourceIp : String)
    (now : Nat) : ManagerState × VacateResult × List (String × CtrlMsg) :=
  match lookupKey ms.rooms roomName with
  | none => (ms, VacateResult.roomNotFound, [])
  | some room =>
      if room.participants.isEmpty then (ms, VacateResult.roomEmpty, [])
      else
        let key := sourceIp ++ ":" ++ roomName
        let hit := lookupKey ms.cooldowns key
        if hit.isSome ∧ now - hit.getD 0 < kVacateCooldownNs then
          (ms, VacateResult.cooldownActive, [])
        else
          ({ ms with cooldowns := setKey ms.cooldowns key now },
            VacateResult.sent, [])

/-! ## Session binder, bound-session message dispatch
(`SessionBinder::on_message`, session_binder.cpp lines 40–60) -/

/-- The parse of a reliable control message: its `type` field and the `id`
payload echoed by pong (other fields do not influence the bound branch). -/
structure JsonMsg where
  type : String
  idNum : Nat
deriving DecidableEq, Repr

/-- An effect the binder can perform while handling a bound session's
message: echo a pong, or invoke the bound room's control handlers. -/
inductive BinderEffect where
  | sendPong (idNum : Nat)
  | roomSetGain (listener source : String) (v : ℚ)
  | roomSetMute (listener source : String) (b : Bool)
deriving DecidableEq, Repr

/-- The bound-session branch of `SessionBinder::on_message` (lines 40–60):
if the raw text contains the substring `"ping"` the message is parsed
(a parse failure returns with no effect) and, when its type is `ping`,
echoed back as a pong; every other message — `gain` and `mute` included —
falls through to the `return` with no effect at all. `containsPing` is
`message.find("\"ping\"") != npos`; `parsed` is the result of
`nlohmann::json::parse`. -/
def onMessageBound (containsPing : Bool) (parsed : Option JsonMsg) :
    List BinderEffect :=
  if containsPing then
    match parsed with
    | none => []
    | some msg =>
        if msg.type = "ping" then [BinderEffect.sendPong msg.idNum] else []
  else []

/-- Is a binder effect an invocation of the bound room's control handlers
(`set_gain` / `set_mute`)? -/
def isRoomControl : BinderEffect → Bool
  | BinderEffect.sendPong _ => false
  | BinderEffect.roomSetGain _ _ _ => true
  | BinderEffect.roomSetMute _ _ _ => true

/-! ## Concrete fixtures used by the theorems and their witnesses -/

/-- A participant record with the given session and output sequence. -/
def mkPart (s : Option String) (seq : Nat) : RoomParticipant :=
  { palias := "x", session := s, output_sequence := seq,
    join_time := 0, last_audio_received_ns := 0, last_audio_sent_ns := 0 }

/-- A mix state with empty rings. -/
def emptyMix : MixState := ⟨[], []⟩

/-- A 264-byte datagram. -/
def d264 : List Nat := List.replicate 264 7

/-- A 512-byte datagram whose first 264 bytes are `d264`. -/
def d512 : List Nat := d264 ++ List.replicate 248 9

/-- A three-participant room (general mixing path), all bound, empty rings. -/
def stR3 : RoomState :=
  { maxParticipants := 4,
    participants := [("A", mkPart (some "sA") 0), ("B", mkPart (some "sB") 0),
                     ("C", mkPart (some "sC") 0)],
    mixer := { maxParticipants := 4,
               participants := [("A", emptyMix), ("B", emptyMix), ("C", emptyMix)],
               gains := [] },
    password := "", framesReceived := 0 }

/-- A two-participant room in which listener B has muted source A. -/
def stC1 : RoomState :=
  { maxParticipants := 4,
    participants := [("A", mkPart (some "sA") 0), ("B", mkPart (some "sB") 0)],
    mixer := { maxParticipants := 4,
               participants := [("A", emptyMix), ("B", emptyMix)],
               gains := [("B", [("A", { gain := 1, muted := true })])] },
    password := "", framesReceived := 0 }

/-- A two-participant room with default gains. -/
def stC9pre : RoomState :=
  { maxParticipants := 4,
    participants := [("A", mkPart (some "sA") 0), ("B", mkPart (some "sB") 0)],
    mixer := { maxParticipants := 4,
               participants := [("A", emptyMix), ("B", emptyMix)],
               gains := [] },
    password := "", framesReceived := 0 }

/-- A one-participant room whose mixer output ring is empty. -/
def stEmptyQ : RoomState :=
  { maxParticipants := 4,
    participants := [("A", mkPart (some "sA") 3)],
    mixer := { maxParticipants := 4, participants := [("A", emptyMix)], gains := [] },
    password := "", framesReceived := 0 }

/-- A mixed output frame waiting in A's output ring. -/
def frW : AudioPacket := ⟨0, 0, List.replicate kSamplesPerFrame 4⟩

/-- A one-participant room with one mixed frame queued for A (sequence 5). -/
def stOut : RoomState :=
  { maxParticipants := 4,
    participants := [("A", mkPart (some "sA") 5)],
    mixer := { maxParticipants := 4, participants := [("A", ⟨[], [frW]⟩)], gains := [] },
    password := "", framesReceived := 0 }

/-- A manager with one non-empty room holding a single bound participant. -/
def mgrC2 : ManagerState :=
  { rooms := [("Cantabile",
      { maxParticipants := 4,
        participants := [("p1", mkPart (some "s1") 0)],
        mixer := { maxParticipants := 4, participants := [("p1", emptyMix)], gains := [] },
        password := "", framesReceived := 0 })],
    cooldowns := [] }

/-- Listener/source naming for the three-participant mixing scenarios. -/
def pidABC : Fin 3 → String :=
  fun j => if j = 0 then "A" else if j = 1 then "B" else "C"

/-- Scenario S3: B pushes `[+10000]×128`, C pushes `[+20000]×128`. -/
def inputS3 : Fin 3 → Option (List ℤ) :=
  fun j => if j = 0 then none
    else if j = 1 then some (List.replicate kSamplesPerFrame 10000)
    else some (List.replicate kSamplesPerFrame 20000)

/-- Scenario S3 gains: A sets gain 0.5 for B and mutes C. -/
def gainsS3 : GainMap :=
  gainsSetMute (gainsSetGain [] "A" "B" (1 / 2)) "A" "C" true

/-- Scenario S2: A pushes silence, B and C push `[+30000]×128`. -/
def inputS2 : Fin 3 → Option (List ℤ) :=
  fun j => if j = 0 then some (List.replicate kSamplesPerFrame 0)
    else some (List.replicate kSamplesPerFrame 30000)

/-! ## Helper lemmas -/

theorem foldl_congr_mem {α β : Type} {f g : β → α → β} :
    ∀ (l : List α) (b : β), (∀ a ∈ l, ∀ acc, f acc a = g acc a) →
      l.foldl f b = l.foldl g b := by
  intro l
  induction l with
  | nil => intro b _; rfl
  | cons x xs ih =>
      intro b h
      simp only [List.foldl_cons]
      rw [h x (List.mem_cons_self x xs)]
      exact ih _ (fun a ha acc => h a (List.mem_cons_of_mem x ha) acc)

theorem foldl_fixed {α β : Type} {f : β → α → β} :
    ∀ (l : List α) (b : β), (∀ a ∈ l, ∀ acc, f acc a = acc) → l.foldl f b = b := by
  intro l
  induction l with
  | nil => intro b _; rfl
  | cons x xs ih =>
      intro b h
      simp only [List.foldl_cons]
      rw [h x (List.mem_cons_self x xs)]
      exact ih _ (fun a ha acc => h a (List.mem_cons_of_mem x ha) acc)

theorem lookupKey_eraseKey_of_none {β : Type} :
    ∀ (l : List (String × β)) (k : String), lookupKey l k = none → eraseKey l k = l := by
  intro l k
  induction l with
  | nil => intro _; rfl
  | cons e rest ih =>
      intro h
      simp only [lookupKey] at h
      simp only [eraseKey]
      by_cases hk : e.1 = k
      · rw [if_pos hk] at h; exact absurd h (by simp)
      · rw [if_neg hk] at h
        cases e
        simp only at hk ⊢
        rw [if_neg hk, ih h]

theorem map_eq_self_of_mem {β : Type} {f : β → β} :
    ∀ (l : List β), (∀ e ∈ l, f e = e) → l.map f = l := by
  intro l
  induction l with
  | nil => intro _; rfl
  | cons x xs ih =>
      intro h
      simp only [List.map_cons]
      rw [h x (List.mem_cons_self x xs), ih (fun e he => h e (List.mem_cons_of_mem x he))]

/-- Claim C10 — `Room::claim` always succeeds, overwrites the stored password
unconditionally for every input (the empty string included), and after
`claim("")` the room is open again: `check_password` accepts anything. -/
theorem claim_always_overwrites (st : RoomState) (p q : String) :
    (st.claimPassword p).1 = true ∧
    (st.claimPassword p).2.password = p ∧
    (st.claimPassword "").2.checkPassword q = true := by
  refine ⟨rfl, rfl, ?_⟩
  simp [RoomState.claimPassword, RoomState.checkPassword]

/-- Claim C8 — password lifecycle: `claim(p)` with non-empty `p` makes
`check_password(p)` true; `check_password("")` is true iff no password is
set; and whenever `remove_participant` leaves the room empty the password is
cleared, so `check_password("")` is again true. -/
theorem password_lifecycle (st st2 : RoomState) (p id : String) (_hp : p ≠ "") :
    (st.claimPassword p).2.checkPassword p = true ∧
    (st.checkPassword "" = true ↔ st.password = "") ∧
    ((st2.removeParticipant id).1.participants = [] →
      (st2.removeParticipant id).1.checkPassword "" = true) := by
  refine ⟨?_, ?_, ?_⟩
  · simp [RoomState.claimPassword, RoomState.checkPassword]
  · constructor
    · intro h
      by_contra hne
      simp [RoomState.checkPassword, hne] at h
    · intro h
      simp [RoomState.checkPassword, h]
  · intro hempty
    simp only [RoomState.removeParticipant] at hempty
    simp [RoomState.removeParticipant, RoomState.checkPassword, hempty]

/-- Witness for C8 at a concrete room: password "x" is accepted after
claiming it, and the empty check matches the empty-password state. -/
theorem password_lifecycle_witness :
    (stC9pre.claimPassword "x").2.checkPassword "x" = true ∧
    (stC9pre.checkPassword "" = true ↔ stC9pre.password = "") ∧
    ((stEmptyQ.removeParticipant "A").1.participants = [] →
      (stEmptyQ.removeParticipant "A").1.checkPassword "" = true) := by
  exact password_lifecycle stC9pre stEmptyQ "x" "A" (by decide)

/-- Claim C3 — corrected reading of the bound-session dispatch: the bound
branch of `SessionBinder::on_message` never invokes the room's control
handlers. A `gain` or `mute` message produces no effect at all (only `ping`
is answered), contradicting the routing the spec describes. -/
theorem bound_dispatch_drops_gain_mute :
    (∀ cp pm, (onMessageBound cp pm).filter isRoomControl = []) ∧
    onMessageBound false (some ⟨"gain", 7⟩) = [] ∧
    onMessageBound true (some ⟨"gain", 7⟩) = [] ∧
    onMessageBound false (some ⟨"mute", 7⟩) = [] ∧
    onMessageBound true (some ⟨"mute", 7⟩) = [] ∧
    onMessageBound true (some ⟨"ping", 7⟩) = [BinderEffect.sendPong 7] := by
  refine ⟨?_, by decide, by decide, by decide, by decide, by decide⟩
  intro cp pm
  cases cp with
  | false => simp [onMessageBound]
  | true =>
      cases pm with
      | none => simp [onMessageBound]
      | some m =>
          simp only [onMessageBound]
          by_cases h : m.type = "ping"
          · simp [h, isRoomControl]
          · simp [h]

/-- Claim C2 — the code never dispatches the vacate notification: on the
`Sent` path of `RoomManager::vacate_request` the message string is built but
the broadcast loop has an empty body, so no bound session receives
`{"type":"vacate_request"}`, even though one exists. -/
theorem vacate_request_sends_nothing :
    (∀ ms r ip now, (ManagerState.vacateRequest ms r ip now).2.2 = []) ∧
    (mgrC2.vacateRequest "Cantabile" "1.2.3.4" 0).2.1 = VacateResult.sent ∧
    (mgrC2.vacateRequest "Cantabile" "1.2.3.4" 0).2.2 = [] ∧
    (lookupKey mgrC2.rooms "Cantabile").map
      (fun r => r.participants.filterMap (fun e => e.2.session)) = some ["s1"] := by
  refine ⟨?_, by decide, by decide, by decide⟩
  intro ms r ip now
  simp only [ManagerState.vacateRequest]
  cases lookupKey ms.rooms r with
  | none => rfl
  | some room =>
      simp only []
      by_cases h1 : room.participants.isEmpty
      · simp [h1]
      · simp only [h1, Bool.false_eq_true, if_false]
        by_cases h2 : (lookupKey ms.cooldowns (ip ++ ":" ++ r)).isSome ∧
            now - (lookupKey ms.cooldowns (ip ++ ":" ++ r)).getD 0 < kVacateCooldownNs
        · simp [h2]
        · simp [h2]

/-- Counterexample to claim C9: starting from a two-participant room, remove
B and then remove B again. The second call leaves the state unchanged but
still broadcasts `participant_left B` to A's session — it is not free of
observable effects. -/
theorem remove_twice_counterexample :
    ((stC9pre.removeParticipant "B").1.removeParticipant "B").2 ≠ [] ∧
    ((stC9pre.removeParticipant "B").1.removeParticipant "B").2 =
      [("sA", CtrlMsg.participantLeft "B")] ∧
    ((stC9pre.removeParticipant "B").1.removeParticipant "B").1 =
      (stC9pre.removeParticipant "B").1 := by
  decide

/-- Claim C9 (amended) — removing an id that is absent from the participant
table (and, as after a genuine first removal, absent from the mixer and the
gain matrix) leaves the room state unchanged, but it is not a complete
no-op: the `participant_left` broadcast is re-sent to every remaining bound
session. -/
theorem remove_absent_rebroadcasts (st : RoomState) (id : String)
    (h1 : lookupKey st.participants id = none)
    (h2 : lookupKey st.mixer.participants id = none)
    (h3 : lookupKey st.mixer.gains id = none)
    (h4 : ∀ e ∈ st.mixer.gains, lookupKey e.2 id = none)
    (h5 : st.participants = [] → st.password = "") :
    (st.removeParticipant id).1 = st ∧
    (st.removeParticipant id).2 = st.participants.filterMap
      (fun e => e.2.session.map (fun s => (s, CtrlMsg.participantLeft id))) := by
  have hparts := lookupKey_eraseKey_of_none st.participants id h1
  have hmps := lookupKey_eraseKey_of_none st.mixer.participants id h2
  have hgtop := lookupKey_eraseKey_of_none st.mixer.gains id h3
  have hgmap : st.mixer.gains.map (fun e => (e.1, eraseKey e.2 id)) = st.mixer.gains := by
    apply map_eq_self_of_mem
    intro e he
    rw [lookupKey_eraseKey_of_none e.2 id (h4 e he)]
  refine ⟨?_, ?_⟩
  · obtain ⟨mp, parts, ⟨mmax, mps, mg⟩, pw, fr⟩ := st
    simp only at hparts hmps hgtop hgmap h5
    simp only [RoomState.removeParticipant, MixerState.removeParticipant,
      hparts, hmps, hgtop, hgmap]
    by_cases hE : parts = []
    · simp [hE, h5 hE]
    · simp [List.isEmpty_iff, hE]
  · simp only [RoomState.removeParticipant, hparts]

/-- Witness for C9 (amended), at the state reached after genuinely removing
B from a two-participant room. -/
theorem i16clamp_bounds (x : ℤ) : -32768 ≤ i16clamp x ∧ i16clamp x ≤ 32767 := by
  unfold i16clamp
  constructor
  · exact le_max_left _ _
  · exact max_le (by norm_num) (min_le_right _ _)

theorem finRange_three : List.finRange 3 = [0, 1, 2] := by decide

/-- Claim C4 — a listener's own input never contributes to its personalised
mix: changing (or erasing) the listener's own input slot leaves its output
unchanged; with a single participant no output is ever produced; and a cycle
in which only the listener supplied input produces no output for it. -/
theorem mix_excludes_self :
    (∀ (n : Nat) (gains : GainMap) (pid : Fin n → String)
        (input : Fin n → Option (List ℤ)) (li : Fin n) (v : Option (List ℤ)),
        mixFor gains pid (Function.update input li v) li = mixFor gains pid input li) ∧
    (∀ (gains : GainMap) (pid : Fin 1 → String) (input : Fin 1 → Option (List ℤ))
        (li : Fin 1), mixFor gains pid input li = none) ∧
    (∀ (n : Nat) (gains : GainMap) (pid : Fin n → String)
        (input : Fin n → Option (List ℤ)) (li : Fin n),
        (∀ j, j ≠ li → input j = none) → mixFor gains pid input li = none) := by
  refine ⟨?_, ?_, ?_⟩
  · intro n gains pid input li v
    unfold mixFor
    rw [foldl_congr_mem]
    intro j _ acc
    by_cases hjl : j = li
    · simp [mixStep, hjl]
    · simp only [mixStep, if_neg hjl]
      rw [Function.update_noteq hjl]
  · intro gains pid input li
    have h0 : (0 : Fin 1) = li := Subsingleton.elim _ _
    simp [mixFor, List.finRange_succ, List.finRange_zero, mixStep, h0]
  · intro n gains pid input li h
    unfold mixFor
    rw [foldl_fixed]
    · rfl
    · intro j _ acc
      by_cases hjl : j = li
      · simp [mixStep, hjl]
      · simp [mixStep, hjl, h j hjl]

theorem mixStep_self {n : Nat} (gains : GainMap) (lid : String) (pid : Fin n → String)
    (input : Fin n → Option (List ℤ)) (li : Fin n) (acc : Bool × List ℤ) :
    mixStep gains lid pid input li acc li = acc := by
  simp [mixStep]

theorem mixStep_muted {n : Nat} (gains : GainMap) (lid : String) (pid : Fin n → String)
    (input : Fin n → Option (List ℤ)) (li j : Fin n) (acc : Bool × List ℤ)
    (hne : j ≠ li)
    (hskip : (lookup2 gains lid (pid j)).muted = true ∨ (lookup2 gains lid (pid j)).gain ≤ 0) :
    mixStep gains lid pid input li acc j = acc := by
  simp only [mixStep, if_neg hne]
  cases hin : input j with
  | none => rfl
  | some samples => simp [hskip]

theorem mixStep_contrib {n : Nat} (gains : GainMap) (lid : String) (pid : Fin n → String)
    (input : Fin n → Option (List ℤ)) (li j : Fin n) (acc : Bool × List ℤ)
    (samples : List ℤ)
    (hne : j ≠ li) (hin : input j = some samples)
    (hmut : (lookup2 gains lid (pid j)).muted = false)
    (hpos : ¬(lookup2 gains lid (pid j)).gain ≤ 0) :
    mixStep gains lid pid input li acc j =
      (true, List.zipWith (fun (a x : ℤ) => a + lround (Int.cast x * (lookup2 gains lid (pid j)).gain))
        acc.2 samples) := by
  simp [mixStep, hne, hin, hmut, hpos]

theorem ge_S3_B : lookup2 gainsS3 (pidABC 0) (pidABC 1) =
    { gain := clamp01 (1 / 2), muted := false } := rfl

theorem ge_S3_C : lookup2 gainsS3 (pidABC 0) (pidABC 2) =
    { gain := 1, muted := true } := rfl

theorem ge_default_AB : lookup2 [] (pidABC 0) (pidABC 1) = { gain := 1, muted := false } := rfl

theorem ge_default_AC : lookup2 [] (pidABC 0) (pidABC 2) = { gain := 1, muted := false } := rfl

theorem clamp01_half : clamp01 (1 / 2) = 1 / 2 := by
  unfold clamp01
  norm_num

/-- Witness for C4: with three participants, erasing listener A's own input
slot leaves A's mix unchanged; a lone participant gets no output; and when
only A supplied input, A gets no output. -/
theorem mix_excludes_self_witness :
    mixFor [] pidABC (Function.update inputS2 0 none) 0 = mixFor [] pidABC inputS2 0 ∧
    mixFor [] (fun _ : Fin 1 => "Z") (fun _ => some (List.replicate 128 5)) 0 = none ∧
    mixFor [] pidABC
      (fun j => if j = 0 then some (List.replicate 128 9) else none) 0 = none := by
  refine ⟨mix_excludes_self.1 3 [] pidABC inputS2 0 none,
    mix_excludes_self.2.1 [] _ _ 0, mix_excludes_self.2.2 3 [] pidABC _ 0 ?_⟩
  intro j hj
  fin_cases j <;> simp_all

theorem getD_take {data : List Nat} {i n d : Nat} (h : i < n) :
    (data.take n).getD i d = data.getD i d := by
  rw [List.getD_eq_getElem?_getD, List.getD_eq_getElem?_getD, List.getElem?_take_of_lt h]

theorem readU32_take {data : List Nat} {off n : Nat} (h : off + 3 < n) :
    readU32 (data.take n) off = readU32 data off := by
  unfold readU32
  rw [getD_take (by omega), getD_take (by omega), getD_take (by omega), getD_take (by omega)]

theorem readI16_take {data : List Nat} {off n : Nat} (h : off + 1 < n) :
    readI16 (data.take n) off = readI16 data off := by
  unfold readI16
  rw [getD_take (by omega), getD_take (by omega)]

/-- Bytes beyond offset 263 never influence `AudioPacket::deserialize`. -/
theorem deserialize_take {data : List Nat} (h : kAudioPacketSize ≤ data.length) :
    AudioPacket.deserialize (data.take kAudioPacketSize) = AudioPacket.deserialize data := by
  have hlen : (data.take kAudioPacketSize).length = kAudioPacketSize := by
    rw [List.length_take]
    exact Nat.min_eq_left h
  unfold AudioPacket.deserialize
  rw [if_neg (by rw [hlen]; omega), if_neg (by omega)]
  have hs : ((List.range kSamplesPerFrame).map
        (fun i => readI16 (data.take kAudioPacketSize) (8 + 2 * i))) =
      ((List.range kSamplesPerFrame).map (fun i => readI16 data (8 + 2 * i))) := by
    apply List.map_congr_left
    intro i hi
    have : i < kSamplesPerFrame := List.mem_range.mp hi
    exact readI16_take (by unfold kSamplesPerFrame at this; unfold kAudioPacketSize; omega)
  rw [readU32_take (by unfold kAudioPacketSize; omega),
    readU32_take (by unfold kAudioPacketSize; omega), hs]

/-- `Room::on_audio_received` reads only the first 264 bytes of the datagram:
on a long datagram the result is the same as on its 264-byte prefix. -/
theorem onAudioReceived_take (st : RoomState) (sender : String) (data : List Nat)
    (now : Nat) (h : kAudioPacketSize ≤ data.length) :
    st.onAudioReceived sender data now =
      st.onAudioReceived sender (data.take kAudioPacketSize) now := by
  have hlen : (data.take kAudioPacketSize).length = kAudioPacketSize := by
    rw [List.length_take]
    exact Nat.min_eq_left h
  have e1 : ¬data.length < kAudioPacketSize := by omega
  have e2 : ¬(data.take kAudioPacketSize).length < kAudioPacketSize := by
    rw [hlen]
    omega
  simp only [RoomState.onAudioReceived, e1, e2, if_false,
    deserialize_take h, List.take_take, Nat.min_self]

/-- Claim C5 — gain/mute semantics of the personalised mix: a (listener,
source) pair whose gain entry is muted or has non-positive gain contributes
nothing (erasing that source's input leaves the listener's output
unchanged); absent entries default to gain 1, unmuted; and scenario S3
evaluates as specified — with A's gain for B set to 0.5 and C muted,
B pushing `[+10000]×128` and C pushing `[+20000]×128` yields A's output
`[+5000]×128`. -/
theorem gain_mute_semantics :
    (∀ (n : Nat) (gains : GainMap) (pid : Fin n → String)
        (input : Fin n → Option (List ℤ)) (li S : Fin n),
        (lookup2 gains (pid li) (pid S)).muted = true ∨
          (lookup2 gains (pid li) (pid S)).gain ≤ 0 →
        mixFor gains pid (Function.update input S none) li = mixFor gains pid input li) ∧
    (∀ l s, lookup2 [] l s = { gain := 1, muted := false }) ∧
    mixFor gainsS3 pidABC inputS3 0 = some (List.replicate kSamplesPerFrame 5000) := by
  refine ⟨?_, fun l s => rfl, ?_⟩
  · intro n gains pid input li S h
    unfold mixFor
    rw [foldl_congr_mem]
    intro j _ acc
    by_cases hjl : j = li
    · simp [mixStep, hjl]
    · by_cases hjS : j = S
      · subst hjS
        rw [mixStep_muted gains (pid li) pid input li j acc hjl h]
        simp [mixStep, hjl, Function.update_same]
      · simp only [mixStep, if_neg hjl]
        rw [Function.update_noteq hjS]
  · have h0 := mixStep_self gainsS3 (pidABC 0) pidABC inputS3 0
      (false, List.replicate kSamplesPerFrame 0)
    have h1 := mixStep_contrib gainsS3 (pidABC 0) pidABC inputS3 0 1
      (false, List.replicate kSamplesPerFrame 0) (List.replicate kSamplesPerFrame 10000)
      (by decide) rfl (by rw [ge_S3_B])
      (by rw [ge_S3_B]; show ¬clamp01 (1 / 2) ≤ 0; rw [clamp01_half]; norm_num)
    have h2 : ∀ acc, mixStep gainsS3 (pidABC 0) pidABC inputS3 0 acc 2 = acc := by
      intro acc
      exact mixStep_muted gainsS3 (pidABC 0) pidABC inputS3 0 2 acc (by decide)
        (by rw [ge_S3_C]; left; rfl)
    have hval : (0 : ℤ) +
        lround (Int.cast (10000 : ℤ) * (lookup2 gainsS3 (pidABC 0) (pidABC 1)).gain) = 5000 := by
      rw [ge_S3_B]
      show (0 : ℤ) + lround (Int.cast (10000 : ℤ) * clamp01 (1 / 2)) = 5000
      rw [clamp01_half]
      unfold lround
      norm_num
    unfold mixFor
    rw [finRange_three]
    simp only [List.foldl_cons, List.foldl_nil, h0, h1, h2]
    rw [List.zipWith_replicate, hval]
    simp only [Nat.min_self, if_true, List.map_replicate]
    have hc : i16clamp 5000 = 5000 := by unfold i16clamp; norm_num
    rw [hc]

/-- Witness for C5: muting C suppresses C's contribution to A's concrete
three-party mix, and the default lookup is (1, unmuted). -/
theorem gain_mute_semantics_witness :
    mixFor gainsS3 pidABC (Function.update inputS3 2 none) 0 =
      mixFor gainsS3 pidABC inputS3 0 ∧
    lookup2 [] "L" "S" = { gain := 1, muted := false } :=
  ⟨gain_mute_semantics.1 3 gainsS3 pidABC inputS3 0 2 (Or.inl (by rw [ge_S3_C])),
    gain_mute_semantics.2.1 "L" "S"⟩

/-- Claim C6 — saturation: every sample of every frame produced by
`mix_cycle`'s per-listener body lies in `[-32768, 32767]`, every sample the
fast path's gain-scaling branch produces lies in that range, and scenario S2
evaluates as specified: B and C each pushing `[+30000]×128` at default gain
produce `[+32767]×128` for listener A. -/
theorem output_saturated :
    (∀ (n : Nat) (gains : GainMap) (pid : Fin n → String)
        (input : Fin n → Option (List ℤ)) (li : Fin n) (out : List ℤ),
        mixFor gains pid input li = some out → ∀ x ∈ out, -32768 ≤ x ∧ x ≤ 32767) ∧
    (∀ (g : ℚ) (samples : List ℤ) (x : ℤ), x ∈ fastScale g samples →
        -32768 ≤ x ∧ x ≤ 32767) ∧
    mixFor [] pidABC inputS2 0 = some (List.replicate kSamplesPerFrame 32767) := by
  refine ⟨?_, ?_, ?_⟩
  · intro n gains pid input li out h x hx
    simp only [mixFor] at h
    split at h
    · obtain rfl : (_ : List ℤ).map i16clamp = out := Option.some.inj h
      obtain ⟨y, _, rfl⟩ := List.mem_map.mp hx
      exact i16clamp_bounds y
    · exact absurd h (by simp)
  · intro g samples x hx
    obtain ⟨y, _, rfl⟩ := List.mem_map.mp hx
    exact i16clamp_bounds _
  · have h0 := mixStep_self ([] : GainMap) (pidABC 0) pidABC inputS2 0
      (false, List.replicate kSamplesPerFrame 0)
    have h1 := mixStep_contrib ([] : GainMap) (pidABC 0) pidABC inputS2 0 1
      (false, List.replicate kSamplesPerFrame 0) (List.replicate kSamplesPerFrame 30000)
      (by decide) rfl (by rw [ge_default_AB]) (by rw [ge_default_AB]; norm_num)
    have hval1 : (0 : ℤ) +
        lround (Int.cast (30000 : ℤ) * (lookup2 [] (pidABC 0) (pidABC 1)).gain) = 30000 := by
      rw [ge_default_AB]
      unfold lround
      norm_num
    have h2 := mixStep_contrib ([] : GainMap) (pidABC 0) pidABC inputS2 0 2
      (true, List.replicate kSamplesPerFrame 30000) (List.replicate kSamplesPerFrame 30000)
      (by decide) rfl (by rw [ge_default_AC]) (by rw [ge_default_AC]; norm_num)
    have hval2 : (30000 : ℤ) +
        lround (Int.cast (30000 : ℤ) * (lookup2 [] (pidABC 0) (pidABC 2)).gain) = 60000 := by
      rw [ge_default_AC]
      unfold lround
      norm_num
    unfold mixFor
    rw [finRange_three]
    simp only [List.foldl_cons, List.foldl_nil, h0, h1]
    rw [List.zipWith_replicate, hval1]
    simp only [Nat.min_self]
    rw [h2, List.zipWith_replicate, hval2]
    simp only [Nat.min_self, if_true, List.map_replicate]
    have hc : i16clamp 60000 = 32767 := by unfold i16clamp; norm_num
    rw [hc]

/-- Witness for C6: the clamped sample of the S2 output and a concrete
fast-path rescaled sample both lie in the int16 range. -/
theorem output_saturated_witness :
    (-32768 ≤ (32767 : ℤ) ∧ (32767 : ℤ) ≤ 32767) ∧
    (-32768 ≤ (10000 : ℤ) ∧ (10000 : ℤ) ≤ 32767) := by
  constructor
  · exact output_saturated.1 3 [] pidABC inputS2 0 _ output_saturated.2.2 32767
      (by rw [List.mem_replicate]; exact ⟨by norm_num [kSamplesPerFrame], rfl⟩)
  · have hfs : fastScale (1 / 2) [20000] = [(10000 : ℤ)] := by
      unfold fastScale
      simp only [List.map_cons, List.map_nil]
      have : lround (Int.cast (20000 : ℤ) * (1 / 2)) = 10000 := by
        unfold lround
        norm_num
      rw [this]
      have : i16clamp 10000 = 10000 := by unfold i16clamp; norm_num
      rw [this]
    exact output_saturated.2.1 (1 / 2) [20000] 10000 (by rw [hfs]; exact List.mem_singleton.mpr rfl)

theorem lookupKey_setKey_ne {β : Type} (l : List (String × β)) (k key : String)
    (v : β) (h : k ≠ key) : lookupKey (setKey l key v) k = lookupKey l k := by
  induction l with
  | nil =>
      simp only [setKey, lookupKey]
      rw [if_neg (fun hke => h hke.symm)]
  | cons e rest ih =>
      obtain ⟨ek, ev⟩ := e
      simp only [setKey]
      by_cases hek : ek = key
      · subst hek
        simp only [if_pos rfl, lookupKey]
        rw [if_neg (fun hke => h hke.symm), if_neg (fun hke => h hke.symm)]
      · simp only [if_neg hek, lookupKey]
        by_cases hk : ek = k
        · simp [hk]
        · simp [hk, ih]

theorem popOutput_val (m : MixerState) (id : String) :
    (m.popOutput id).2 = (lookupKey m.participants id).bind
      (fun ms => ms.output_queue.head?) := by
  unfold MixerState.popOutput
  cases hl : lookupKey m.participants id with
  | none => rfl
  | some st =>
      obtain ⟨iq, oq⟩ := st
      cases oq with
      | nil => rfl
      | cons f rest => rfl

theorem popOutput_none_eq (m : MixerState) (id : String)
    (h : (m.popOutput id).2 = none) : (m.popOutput id).1 = m := by
  rw [popOutput_val] at h
  unfold MixerState.popOutput
  cases hl : lookupKey m.participants id with
  | none => rfl
  | some st =>
      rw [hl] at h
      obtain ⟨iq, oq⟩ := st
      cases oq with
      | nil => rfl
      | cons f rest => simp at h

theorem popOutput_lookup_ne (m : MixerState) (id k : String) (h : id ≠ k) :
    lookupKey ((m.popOutput k).1).participants id = lookupKey m.participants id := by
  unfold MixerState.popOutput
  cases hl : lookupKey m.participants k with
  | none => rfl
  | some st =>
      obtain ⟨iq, oq⟩ := st
      cases oq with
      | nil => rfl
      | cons f rest => exact lookupKey_setKey_ne _ _ _ _ h

theorem popOutput_val_after_ne (m : MixerState) (id k : String) (h : id ≠ k) :
    ((m.popOutput k).1.popOutput id).2 = (m.popOutput id).2 := by
  rw [popOutput_val, popOutput_val, popOutput_lookup_ne m id k h]

theorem sendOutputsAux_lookup_none (now : Nat) (id : String) :
    ∀ (parts : List (String × RoomParticipant)) (m : MixerState),
      (m.popOutput id).2 = none →
      lookupKey (sendOutputsAux now parts m).1 id = lookupKey parts id := by
  intro parts
  induction parts with
  | nil => intro m _; rfl
  | cons e rest ih =>
      intro m hm
      obtain ⟨k, p⟩ := e
      simp only [sendOutputsAux]
      cases hpm : (m.popOutput k).2 with
      | none =>
          simp only [lookupKey]
          by_cases hk : k = id
          · simp [hk]
          · simp only [if_neg hk]
            rw [popOutput_none_eq m k hpm]
            exact ih m hm
      | some fr =>
          have hk : k ≠ id := by
            intro hkid
            rw [hkid] at hpm
            rw [hm] at hpm
            exact absurd hpm (by simp)
          simp only [lookupKey, if_neg hk]
          refine ih (m.popOutput k).1 ?_
          rw [popOutput_val_after_ne _ _ _ (Ne.symm hk)]
          exact hm

theorem sendOutputsAux_lookup_some (now : Nat) (id : String) :
    ∀ (parts : List (String × RoomParticipant)) (m : MixerState)
      (p : RoomParticipant) (fr : AudioPacket),
      lookupKey parts id = some p →
      (m.popOutput id).2 = some fr →
      lookupKey (sendOutputsAux now parts m).1 id =
        some { p with last_audio_sent_ns := now,
                      output_sequence := seqSucc p.output_sequence } ∧
      (p.session, AudioPacket.serialize { fr with sequence := p.output_sequence }) ∈
        (sendOutputsAux now parts m).2.2 := by
  intro parts
  induction parts with
  | nil => intro m p fr hl _; exact absurd hl (by simp [lookupKey])
  | cons e rest ih =>
      intro m p fr hl hm
      obtain ⟨k, q⟩ := e
      by_cases hk : k = id
      · subst hk
        simp only [lookupKey, if_pos rfl] at hl
        obtain rfl : q = p := Option.some.inj hl
        simp only [sendOutputsAux, hm, lookupKey, if_pos rfl]
        exact ⟨rfl, List.mem_cons_self _ _⟩
      · simp only [lookupKey, if_neg hk] at hl
        simp only [sendOutputsAux]
        cases hpm : (m.popOutput k).2 with
        | none =>
            simp only [lookupKey, if_neg hk]
            rw [popOutput_none_eq m k hpm]
            exact ih m p fr hl hm
        | some fr' =>
            simp only [lookupKey, if_neg hk]
            have hrec := ih (m.popOutput k).1 p fr hl
              (by rw [popOutput_val_after_ne _ _ _ (fun h => hk h.symm)]; exact hm)
            exact ⟨hrec.1, List.mem_cons_of_mem _ hrec.2⟩

theorem lookupKey_stampKey_self {β : Type} (l : List (String × β)) (k : String)
    (g : β → β) : lookupKey (stampKey l k g) k = (lookupKey l k).map g := by
  induction l with
  | nil => rfl
  | cons e rest ih =>
      obtain ⟨ek, ev⟩ := e
      by_cases hek : ek = k
      · subst hek
        simp only [stampKey, if_true]
        simp [lookupKey]
      · simp only [stampKey]
        rw [if_neg hek]
        simp [lookupKey, hek, ih]

theorem lookupKey_stampKey_ne {β : Type} (l : List (String × β)) (k k' : String)
    (g : β → β) (h : k' ≠ k) :
    lookupKey (stampKey l k g) k' = lookupKey l k' := by
  induction l with
  | nil => rfl
  | cons e rest ih =>
      obtain ⟨ek, ev⟩ := e
      by_cases hek : ek = k
      · subst hek
        simp only [stampKey, if_true]
        simp [lookupKey, Ne.symm h, ih]
      · simp only [stampKey]
        rw [if_neg hek]
        simp only [lookupKey]
        by_cases hk : ek = k'
        · simp [hk]
        · simp [hk, ih]

theorem stampKey_length {β : Type} :
    ∀ (l : List (String × β)) (k : String) (g : β → β),
      (stampKey l k g).length = l.length := by
  intro l k g
  induction l with
  | nil => rfl
  | cons e rest ih =>
      obtain ⟨ek, ev⟩ := e
      simp [stampKey, ih]

theorem findTarget_stampKey (l : List (String × RoomParticipant)) (sender : String)
    (g : RoomParticipant → RoomParticipant) :
    findTarget (stampKey l sender g) sender = findTarget l sender := by
  induction l with
  | nil => rfl
  | cons e rest ih =>
      obtain ⟨ek, ev⟩ := e
      by_cases hek : ek = sender
      · subst hek
        simp only [stampKey, if_pos rfl, findTarget]
        rw [List.find?_cons_of_neg _ (by simp), List.find?_cons_of_neg _ (by simp)]
        exact ih
      · simp only [stampKey, if_neg hek, findTarget]
        rw [List.find?_cons_of_pos _ (by simp [hek]), List.find?_cons_of_pos _ (by simp [hek])]

theorem findTarget_ne (l : List (String × RoomParticipant)) (sender tid : String)
    (tp : RoomParticipant) (h : findTarget l sender = some (tid, tp)) :
    tid ≠ sender := by
  have hpe := List.find?_some h
  exact of_decide_eq_true hpe

theorem lookupKey_of_mem_nodup {β : Type} :
    ∀ (l : List (String × β)) (k : String) (v : β),
      (l.map Prod.fst).Nodup → (k, v) ∈ l → lookupKey l k = some v := by
  intro l
  induction l with
  | nil => intro k v _ hm; exact absurd hm (by simp)
  | cons e rest ih =>
      intro k v hnd hm
      obtain ⟨ek, ev⟩ := e
      simp only [List.map_cons, List.nodup_cons] at hnd
      rcases List.mem_cons.mp hm with he | hrest
      · obtain ⟨rfl, rfl⟩ := Prod.mk.injEq .. ▸ he
        · simp [lookupKey]
      · have hk : ek ≠ k := by
          intro hke
          subst hke
          exact hnd.1 (by exact List.mem_map.mpr ⟨(ek, v), hrest, rfl⟩)
        simp only [lookupKey, if_neg hk]
        exact ih k v hnd.2 hrest

theorem findTarget_lookup (l : List (String × RoomParticipant)) (sender tid : String)
    (tp : RoomParticipant) (hnd : (l.map Prod.fst).Nodup)
    (h : findTarget l sender = some (tid, tp)) : lookupKey l tid = some tp :=
  lookupKey_of_mem_nodup l tid tp hnd (List.mem_of_find?_eq_some h)

theorem take4_append (seq : Nat) (rest : List Nat) :
    (u32Bytes seq ++ rest).take 4 = u32Bytes seq := by
  rw [show (4 : Nat) = (u32Bytes seq).length from rfl, List.take_left]

theorem serialize_take4 (p : AudioPacket) :
    (AudioPacket.serialize p).take 4 = u32Bytes p.sequence := by
  unfold AudioPacket.serialize
  rw [List.append_assoc, take4_append]

theorem sendOutputs_counter_unchanged (st : RoomState) (now : Nat) (id : String)
    (h : (st.mixer.popOutput id).2 = none) :
    counterOf (st.sendOutputs now).1 id = counterOf st id := by
  unfold counterOf RoomState.sendOutputs
  simp only []
  rw [sendOutputsAux_lookup_none now id st.participants st.mixer h]

theorem sendOutputs_counter_pop (st : RoomState) (now : Nat) (id : String)
    (p : RoomParticipant) (fr : AudioPacket)
    (hl : lookupKey st.participants id = some p)
    (hm : (st.mixer.popOutput id).2 = some fr) :
    counterOf (st.sendOutputs now).1 id = some (seqSucc p.output_sequence) ∧
    (p.session, AudioPacket.serialize { fr with sequence := p.output_sequence }) ∈
      (st.sendOutputs now).2 := by
  have h := sendOutputsAux_lookup_some now id st.participants st.mixer p fr hl hm
  unfold counterOf RoomState.sendOutputs
  exact ⟨by simp only []; rw [h.1]; rfl, by simpa using h.2⟩

theorem fastpath_consumes_sequence (st : RoomState) (sender : String)
    (data : List Nat) (now : Nat) (tid : String) (tp : RoomParticipant)
    (hlen : kAudioPacketSize ≤ data.length)
    (h2 : st.participants.length = 2)
    (hnd : (st.participants.map Prod.fst).Nodup)
    (hft : findTarget st.participants sender = some (tid, tp)) :
    counterOf (st.onAudioReceived sender data now).1 tid =
      some (seqSucc tp.output_sequence) ∧
    ∀ pr ∈ (st.onAudioReceived sender data now).2,
      pr.2.take 4 = u32Bytes tp.output_sequence := by
  have e1 : ¬data.length < kAudioPacketSize := by omega
  have htid_ne : tid ≠ sender := findTarget_ne _ _ _ _ hft
  have hft1 : findTarget
      (stampKey st.participants sender (fun p => { p with last_audio_received_ns := now }))
      sender = some (tid, tp) := by
    rw [findTarget_stampKey]
    exact hft
  have hlen2 : (stampKey st.participants sender
      (fun p => { p with last_audio_received_ns := now })).length = 2 := by
    rw [stampKey_length]
    exact h2
  have hcnt : ∀ (bump : RoomParticipant → RoomParticipant),
      (lookupKey (stampKey (stampKey st.participants sender
          (fun p => { p with last_audio_received_ns := now })) tid bump) tid).map
        RoomParticipant.output_sequence = some ((bump tp).output_sequence) := by
    intro bump
    rw [lookupKey_stampKey_self, lookupKey_stampKey_ne _ _ _ _ htid_ne,
      findTarget_lookup st.participants sender tid tp hnd hft]
    rfl
  unfold RoomState.onAudioReceived stampReceived
  rw [if_neg e1]
  simp only [hlen2, if_true, hft1]
  by_cases hge : (MixerState.getGainEntry st.mixer tid sender).muted = true ∨
      (MixerState.getGainEntry st.mixer tid sender).gain ≤ 0
  · rw [if_pos hge]
    refine ⟨?_, by simp⟩
    unfold counterOf
    simp only []
    exact hcnt _
  · rw [if_neg hge]
    refine ⟨?_, ?_⟩
    · unfold counterOf
      cases tp.session with
      | none => simp only []; exact hcnt _
      | some s => simp only []; exact hcnt _
    · intro pr hpr
      by_cases hg1 : (MixerState.getGainEntry st.mixer tid sender).gain = 1
      · rw [if_pos hg1] at hpr
        cases hs : tp.session with
        | none => rw [hs] at hpr; simp at hpr
        | some s =>
            rw [hs] at hpr
            simp only [List.mem_singleton] at hpr
            subst hpr
            exact take4_append _ _
      · rw [if_neg hg1] at hpr
        cases hs : tp.session with
        | none => rw [hs] at hpr; simp at hpr
        | some s =>
            rw [hs] at hpr
            simp only [List.mem_singleton] at hpr
            subst hpr
            exact serialize_take4 _

/-- Claim C7 — datagram length handling in `Room::on_audio_received`: a
datagram shorter than 264 bytes is discarded with no state change and no
send; a 264-byte datagram is accepted (here: in a three-participant room the
sender's mixer input ring receives the deserialized frame); and any longer
datagram is processed exactly like its first 264 bytes, trailing bytes
ignored. -/
theorem datagram_length_handling :
    (∀ (st : RoomState) (sender : String) (data : List Nat) (now : Nat),
        data.length < kAudioPacketSize → st.onAudioReceived sender data now = (st, [])) ∧
    (∀ (st : RoomState) (sender : String) (data : List Nat) (now : Nat),
        kAudioPacketSize ≤ data.length →
        st.onAudioReceived sender data now =
          st.onAudioReceived sender (data.take kAudioPacketSize) now) ∧
    ((lookupKey (stR3.onAudioReceived "A" d264 7).1.mixer.participants "A").map
        MixState.input_queue = some [AudioPacket.deserialize d264]) ∧
    stR3.onAudioReceived "A" d512 7 = stR3.onAudioReceived "A" d264 7 := by
  refine ⟨?_, onAudioReceived_take, by decide, ?_⟩
  · intro st sender data now h
    unfold RoomState.onAudioReceived
    rw [if_pos h]
  · rw [onAudioReceived_take stR3 "A" d512 7 (by decide)]
    have : d512.take kAudioPacketSize = d264 := by
      have hlen : d264.length = kAudioPacketSize := by decide
      rw [d512, ← hlen, List.take_left]
    rw [this]

/-- Counterexample to claim C1: in a two-participant room where listener B
has muted source A, a fast-path `on_audio_received` call from A is dropped —
no datagram is produced — yet B's `output_sequence` counter advances from 0
to 1: the drop consumed a sequence number. -/
theorem fastpath_drop_counterexample :
    (stC1.onAudioReceived "A" d264 5).2 = [] ∧
    counterOf stC1 "B" = some 0 ∧
    counterOf (stC1.onAudioReceived "A" d264 5).1 "B" = some 1 := by
  decide

/-- Claim C1 (amended) — sequence numbers are consumed by read-then-increment
at stamping time, but a fast-path drop still consumes one. Precisely:
(1) a mix/send cycle that pops no output frame for a listener leaves its
`output_sequence` counter unchanged; (2) when `send_outputs` pops a frame
for a listener, the emitted datagram is stamped with the pre-increment
counter value and the counter advances by exactly 1 (mod 2^32), so
consecutive frames emitted by the mixer path are numbered consecutively;
(3) a two-participant fast-path call advances the target's counter by
exactly 1 (mod 2^32) *whether or not* a datagram is produced — a drop on
mute or non-positive gain consumes the number, leaving a gap — and any
datagram it does produce is stamped with the pre-increment value. -/
theorem sequence_stamping :
    (∀ (st : RoomState) (now : Nat) (id : String),
        (st.mixer.popOutput id).2 = none →
        counterOf (st.sendOutputs now).1 id = counterOf st id) ∧
    (∀ (st : RoomState) (now : Nat) (id : String) (p : RoomParticipant)
        (fr : AudioPacket),
        lookupKey st.participants id = some p →
        (st.mixer.popOutput id).2 = some fr →
        counterOf (st.sendOutputs now).1 id = some (seqSucc p.output_sequence) ∧
        (p.session, AudioPacket.serialize { fr with sequence := p.output_sequence }) ∈
          (st.sendOutputs now).2) ∧
    (∀ (st : RoomState) (sender : String) (data : List Nat) (now : Nat)
        (tid : String) (tp : RoomParticipant),
        kAudioPacketSize ≤ data.length →
        st.participants.length = 2 →
        (st.participants.map Prod.fst).Nodup →
        findTarget st.participants sender = some (tid, tp) →
        counterOf (st.onAudioReceived sender data now).1 tid =
          some (seqSucc tp.output_sequence) ∧
        ∀ pr ∈ (st.onAudioReceived sender data now).2,
          pr.2.take 4 = u32Bytes tp.output_sequence) :=
  ⟨sendOutputs_counter_unchanged, sendOutputs_counter_pop, fastpath_consumes_sequence⟩

/-- Witness for C1 (amended): an empty output ring leaves A's counter at 3;
a queued frame for A (counter 5) is stamped 5 and the counter becomes 6; and
the muted fast-path call advances B's counter while producing nothing. -/
theorem sequence_stamping_witness :
    counterOf (stEmptyQ.sendOutputs 3).1 "A" = counterOf stEmptyQ "A" ∧
    (counterOf (stOut.sendOutputs 3).1 "A" = some (seqSucc 5) ∧
      (some "sA", AudioPacket.serialize { frW with sequence := 5 }) ∈
        (stOut.sendOutputs 3).2) ∧
    (counterOf (stC1.onAudioReceived "A" d264 5).1 "B" = some (seqSucc 0) ∧
      ∀ pr ∈ (stC1.onAudioReceived "A" d264 5).2,
        pr.2.take 4 = u32Bytes 0) :=
  ⟨sequence_stamping.1 stEmptyQ 3 "A" (by decide),
    sequence_stamping.2.1 stOut 3 "A" (mkPart (some "sA") 5) frW (by decide) (by decide),
    sequence_stamping.2.2 stC1 "A" d264 5 "B" (mkPart (some "sB") 0)
      (by decide) (by decide) (by decide) (by decide)⟩

/-- Witness for C7: a 263-byte datagram is discarded without effect, and the
512-byte datagram equals its 264-byte prefix under `on_audio_received`. -/
theorem datagram_length_handling_witness :
    stR3.onAudioReceived "A" (List.replicate 263 7) 7 = (stR3, []) ∧
    stR3.onAudioReceived "A" d512 7 = stR3.onAudioReceived "A" (d512.take kAudioPacketSize) 7 :=
  ⟨datagram_length_handling.1 stR3 "A" (List.replicate 263 7) 7 (by decide),
    datagram_length_handling.2.1 stR3 "A" d512 7 (by decide)⟩

theorem remove_absent_rebroadcasts_witness :
    ((stC9pre.removeParticipant "B").1.removeParticipant "B").1 =
      (stC9pre.removeParticipant "B").1 ∧
    ((stC9pre.removeParticipant "B").1.removeParticipant "B").2 =
      (stC9pre.removeParticipant "B").1.participants.filterMap
        (fun e => e.2.session.map (fun s => (s, CtrlMsg.participantLeft "B"))) :=
  remove_absent_rebroadcasts _ "B" (by decide) (by decide) (by decide)
    (by decide) (by decide)

end Tutti
